import Mathlib

/-!
Verification development for the `field_profiler` streaming analysis engine
(`field_profiler_task.py`).

The Python source is shallowly embedded here over exact arithmetic:
Python floats become rationals (`ℚ`), Python's `float('nan')` results become
`Option.none`, the initial `float('inf')` / `float('-inf')` extrema sentinels
become `Option.none`, fallible code becomes `Except`/`Option`, and the calls
to `random.randint` inside `ReservoirSampler.update` are supplied by an
explicit oracle argument (a function from the pre-update `count_seen` to the
drawn index).  `QVariant` field values become `Option V` (`none` is SQL null),
and per-field values carry a domain-specific payload type `V`.
-/

namespace FieldProfiler

/-- Models the class constant `FieldProfilerTask.MAX_EXACT_VALUES = 1000000`. -/
def MAX_EXACT_VALUES : ℕ := 1000000

/-- Models the `StreamingStats` class state: `count`, `min_val`, `max_val`,
`mean`, `M2`.  `min_val`/`max_val` are `Option ℚ` where `none` stands for the
initial `float('inf')` / `float('-inf')` sentinels (every real value compares
below / above them). -/
structure StreamingStats where
  count : ℕ
  min_val : Option ℚ
  max_val : Option ℚ
  mean : ℚ
  M2 : ℚ
deriving DecidableEq, Repr

/-- Models `StreamingStats.__init__`. -/
def StreamingStats.start : StreamingStats :=
  { count := 0, min_val := none, max_val := none, mean := 0, M2 := 0 }

/-- Models `StreamingStats.update` (Welford's algorithm, lines 31-39 of the
source): bump count, update extrema, then
`delta = val - mean; mean += delta / count; delta2 = val - mean;
M2 += delta * delta2`. -/
def StreamingStats.update (s : StreamingStats) (val : ℚ) : StreamingStats :=
  let count := s.count + 1
  let min_val := match s.min_val with
    | none => some val
    | some m => if val < m then some val else some m
  let max_val := match s.max_val with
    | none => some val
    | some m => if val > m then some val else some m
  let delta := val - s.mean
  let mean := s.mean + delta / count
  let delta2 := val - mean
  { count := count, min_val := min_val, max_val := max_val,
    mean := mean, M2 := s.M2 + delta * delta2 }

/-- Models `StreamingStats.variance`: `nan` (here `none`) when `count < 2`,
otherwise the population variance `M2 / count`. -/
def StreamingStats.variance (s : StreamingStats) : Option ℚ :=
  if s.count < 2 then none else some (s.M2 / s.count)

/-- Models `StreamingStats.std_dev`: `nan` (here `none`) when `count < 2`,
otherwise `(M2 / count) ** 0.5`; the Python `** 0.5` is embedded as the real
power `x ^ (1/2 : ℝ)` of the exact quotient. -/
noncomputable def StreamingStats.std_dev (s : StreamingStats) : Option ℝ :=
  if s.count < 2 then none else some (((s.M2 / s.count : ℚ) : ℝ) ^ ((1 : ℝ) / 2))

/-- Folding a whole stream of values through `StreamingStats.update`,
starting from the freshly-constructed state. -/
def streamFold (xs : List ℚ) : StreamingStats :=
  xs.foldl StreamingStats.update StreamingStats.start

/-- The exact arithmetic mean of a list (0 for the empty list, matching the
constructor's `mean = 0.0`). -/
def exactMean (xs : List ℚ) : ℚ := xs.sum / xs.length

/-- The exact sum of squared deviations of a list from its own mean. -/
def sqDevSum (xs : List ℚ) : ℚ :=
  (xs.map (fun x => (x - exactMean xs) ^ 2)).sum

/-- The sum of squares of a list. -/
def sumSq (xs : List ℚ) : ℚ := (xs.map (fun x => x ^ 2)).sum

/-- Models the `ReservoirSampler` class state: fixed `size`, the retained
`reservoir`, and the monotone `count_seen`. -/
structure ReservoirSampler (α : Type) where
  size : ℕ
  reservoir : List α
  count_seen : ℕ
deriving DecidableEq, Repr

/-- Models `ReservoirSampler.update`: bump `count_seen`; append while the
buffer is below `size`; afterwards draw `r = random.randint(0, count_seen-1)`
and overwrite slot `r` when `r < size`.  The random draw is supplied by the
caller as `rnd`, reduced modulo the post-increment `count_seen` to model the
`randint` range. -/
def ReservoirSampler.update (s : ReservoirSampler α) (item : α) (rnd : ℕ) :
    ReservoirSampler α :=
  let cs := s.count_seen + 1
  if s.reservoir.length < s.size then
    { s with count_seen := cs, reservoir := s.reservoir ++ [item] }
  else
    let r := rnd % cs
    if r < s.size then
      { s with count_seen := cs, reservoir := s.reservoir.set r item }
    else
      { s with count_seen := cs }

/-- A fresh `ReservoirSampler(size)`. -/
def ReservoirSampler.start (α : Type) (size : ℕ) : ReservoirSampler α :=
  { size := size, reservoir := [], count_seen := 0 }

/-- The static per-field information the collection loop reads from the QGIS
field metadata: `meta['object'].isNumeric()`, `meta['type'] == QVariant.String`,
`meta['type'] in [QVariant.Date, QVariant.DateTime]`, the `float(...)`
conversion on payloads (`none` when `float` would raise), and the
`_has_non_printable_chars` test on payloads. -/
structure FieldKind (V : Type) where
  isNumeric : Bool
  isString : Bool
  isDate : Bool
  toFloat : V → Option ℚ
  hasNonPrintable : V → Bool

/-- Models one entry of the `collectors` dict built at lines 116-125 of
`FieldProfilerTask.run`. -/
structure Collector (V : Type) where
  null_count : ℕ
  streaming_stats : Option StreamingStats
  reservoir : ReservoirSampler V
  conversion_errors : ℕ
  conversion_error_fids : List ℕ
  non_printable_fids : List ℕ
  is_exact : Bool
  original_variants_reservoir : Option (ReservoirSampler V)

/-- Models the collector initialization at lines 116-125: streaming stats only
for numeric fields, a value reservoir of capacity `MAX_EXACT_VALUES`, empty
error lists, `is_exact = True`, and a secondary reservoir only for
date/datetime fields. -/
def Collector.start {V : Type} (k : FieldKind V) : Collector V :=
  { null_count := 0
  , streaming_stats := if k.isNumeric then some StreamingStats.start else none
  , reservoir := ReservoirSampler.start V MAX_EXACT_VALUES
  , conversion_errors := 0
  , conversion_error_fids := []
  , non_printable_fids := []
  , is_exact := true
  , original_variants_reservoir :=
      if k.isDate then some (ReservoirSampler.start V MAX_EXACT_VALUES) else none }

/-- Models lines 179-182: for date/datetime fields, a non-null original value
is fed to the secondary reservoir before the null/value dispatch. -/
def Collector.updDate {V : Type} (oracle : ℕ → ℕ) (c : Collector V)
    (val : Option V) : Collector V :=
  match c.original_variants_reservoir, val with
  | some r, some v =>
      { c with original_variants_reservoir := some (r.update v (oracle r.count_seen)) }
  | _, _ => c

/-- Models the body of the per-field collection loop (lines 174-209 of
`FieldProfilerTask.run`) for one `(fid, value)` pair: date-original sampling,
null counting, reservoir update, the `is_exact` switch, numeric conversion
with exact error counting and a fid list capped at 1000, and the
non-printable fid list (capped at 1000) for string fields. -/
def collectStep {V : Type} (k : FieldKind V) (oracle : ℕ → ℕ)
    (c : Collector V) (row : ℕ × Option V) : Collector V :=
  let fid := row.1
  let c := c.updDate oracle row.2
  match row.2 with
  | none => { c with null_count := c.null_count + 1 }
  | some v =>
    let res := c.reservoir.update v (oracle c.reservoir.count_seen)
    let ex := if c.is_exact && decide (res.count_seen > MAX_EXACT_VALUES)
              then false else c.is_exact
    let c := { c with reservoir := res, is_exact := ex }
    if k.isNumeric then
      match k.toFloat v with
      | some f => { c with streaming_stats := c.streaming_stats.map (·.update f) }
      | none =>
          { c with conversion_errors := c.conversion_errors + 1
                 , conversion_error_fids :=
                     if c.conversion_error_fids.length < 1000
                     then c.conversion_error_fids ++ [fid]
                     else c.conversion_error_fids }
    else if k.isString then
      if k.hasNonPrintable v then
        { c with non_printable_fids :=
                   if c.non_printable_fids.length < 1000
                   then c.non_printable_fids ++ [fid]
                   else c.non_printable_fids }
      else c
    else c

/-- The full collection pass for one field over a list of `(fid, value)`
rows. -/
def collectField {V : Type} (k : FieldKind V) (oracle : ℕ → ℕ)
    (rows : List (ℕ × Option V)) : Collector V :=
  rows.foldl (collectStep k oracle) (Collector.start k)

/-- Number of null values in a row list. -/
def nullCnt {V : Type} (rows : List (ℕ × Option V)) : ℕ :=
  rows.countP (fun r => r.2.isNone)

/-- Number of non-null values in a row list. -/
def nonNullCnt {V : Type} (rows : List (ℕ × Option V)) : ℕ :=
  rows.countP (fun r => r.2.isSome)

/-- Number of non-null values whose numeric conversion fails. -/
def badCnt {V : Type} (k : FieldKind V) (rows : List (ℕ × Option V)) : ℕ :=
  rows.countP (fun r => match r.2 with
    | some v => (k.toFloat v).isNone
    | none => false)

/-- Number of non-null values flagged as containing non-printable
characters. -/
def npCnt {V : Type} (k : FieldKind V) (rows : List (ℕ × Option V)) : ℕ :=
  rows.countP (fun r => match r.2 with
    | some v => k.hasNonPrintable v
    | none => false)

/-- Models `allowed_control = {'\t', '\n', '\r'}` in
`_has_non_printable_chars`. -/
def allowed_control : List Char := ['\t', '\n', '\r']

/-- Models `FieldProfilerTask._has_non_printable_chars` on a string value:
`any(not c.isprintable() and c not in allowed_control for c in text_value)`.
Python's Unicode-category-based `str.isprintable` is abstracted as the
`printable` oracle. (The `isinstance(text_value, str)` guard is vacuous here
because string-field payloads are `String`.) -/
def has_non_printable_chars (printable : Char → Bool) (s : String) : Bool :=
  s.data.any (fun c => !printable c && !allowed_control.contains c)

/-- The `FieldKind` of a string field (`meta['type'] == QVariant.String`,
non-numeric, non-temporal). -/
def textKind (printable : Char → Bool) : FieldKind String :=
  { isNumeric := false, isString := true, isDate := false
  , toFloat := fun _ => none
  , hasNonPrintable := has_non_printable_chars printable }

/-- A raw value of a numeric field: either convertible by `float(...)` to an
exact rational, or a non-null value on which `float(...)` raises. -/
inductive NumVal where
  | num (q : ℚ)
  | bad
deriving DecidableEq, Repr

/-- Models `float(val)` on a numeric-field payload: `none` when it raises
`ValueError`/`TypeError`. -/
def NumVal.toFloatQ : NumVal → Option ℚ
  | num q => some q
  | bad => none

/-- The `FieldKind` of a numeric field. -/
def numericKind : FieldKind NumVal :=
  { isNumeric := true, isString := false, isDate := false
  , toFloat := NumVal.toFloatQ
  , hasNonPrintable := fun _ => false }

/-- A count appearing in a result map: either the exact sample count (stored
as a plain integer by the source) or a scaled estimate (stored by the source
as the string `f"{n} (Est.)"`, i.e. labeled as an estimate). -/
inductive CountResult where
  | exact (n : ℕ)
  | est (n : ℕ)
deriving DecidableEq, Repr

/-- The display string of a count result; `est n` renders with the
`" (Est.)"` estimate label, exactly as the source formats it. -/
def CountResult.display : CountResult → String
  | exact n => toString n
  | est n => toString n ++ " (Est.)"

/-- The scaling expression the source applies to sample-derived counts when
`is_exact` is false: `int(sample_count * count / sample_size)` — an exact
product divided with truncation (Python `int()` on a nonnegative float),
which on naturals is floor division. -/
def floorEstimate (sampleCount total sampleSize : ℕ) : ℕ :=
  sampleCount * total / sampleSize

/-- Modelled from the spec's words (§9, "Estimate scaling policy for sampled
counts"): `estimated = round(sample_count * count_seen_total / sample_size)`,
with exact rounding of the rational quotient. -/
def specRoundEstimate (sampleCount total sampleSize : ℕ) : ℕ :=
  (round ((sampleCount * total : ℚ) / sampleSize)).toNat

/-- Models `Counter(str_sample).most_common(k)`: the distinct values in
first-occurrence order, paired with their multiplicities, stably sorted by
descending count, truncated to `k`. -/
def mostCommon (l : List String) (k : ℕ) : List (String × ℕ) :=
  let keys := l.foldl (fun acc s => if s ∈ acc then acc else acc ++ [s]) []
  ((keys.map (fun s => (s, l.count s))).insertionSort
      (fun a b => b.2 ≤ a.2)).take k

/-- Models `numpy.percentile(data, q)` with the default linear interpolation:
sort, take position `(n-1)*q/100`, and interpolate between the two
neighbouring order statistics. (Unused — and guarded by the caller — when the
list is empty.) -/
def percentile (l : List ℚ) (q : ℚ) : ℚ :=
  let s := l.insertionSort (· ≤ ·)
  let n := s.length
  let pos : ℚ := ((n : ℚ) - 1) * q / 100
  let f : ℕ := (⌊pos⌋).toNat
  let lo := s.getD f 0
  let hi := s.getD (min (f + 1) (n - 1)) 0
  lo + (hi - lo) * (pos - (f : ℚ))

/-- The IQR outlier fences of a sample:
`[Q1 - 1.5*IQR, Q3 + 1.5*IQR]` (lines 393-399). -/
def iqrFences (ds : List ℚ) : ℚ × ℚ :=
  let q1 := percentile ds 25
  let q3 := percentile ds 75
  let iqr := q3 - q1
  (q1 - 3/2 * iqr, q3 + 3/2 * iqr)

/-- The sample items outside the IQR fences
(`data_sample[(data_sample < lower) | (data_sample > upper)]`, line 400). -/
def iqrOutliers (ds : List ℚ) : List ℚ :=
  ds.filter (fun x => decide (x < (iqrFences ds).1) || decide ((iqrFences ds).2 < x))

/-- The entries of the `_analyze_text` result map that the claims are about:
`Empty Strings`, the length statistics, `_top_values_raw` (plain
`(value, count)` pairs, scaled but carrying no estimate label), and
`Unique Values (Top)` (`topDisplay`), the same counts rendered as
`'value': count` lines — also without any estimate label. -/
structure TextReport where
  emptyStrings : CountResult
  minLength : Option ℕ
  maxLength : Option ℕ
  avgLength : Option ℚ
  topValuesRaw : List (String × ℕ)
  topDisplay : String
deriving DecidableEq, Repr

/-- Models `FieldProfilerTask._analyze_text` (lines 435-474).  `sample` is the
reservoir contents; `str(x)` on string payloads is the identity.  The empty
string count is reported exactly when `is_exact`, else scaled by
`int(c * count / len(sample))` and labeled `"(Est.)"` (line 447).  The
top-`limitUnique` frequency counts are scaled the same way when not exact but
emitted as plain integers: `_top_values_raw` holds bare `(str(v), actual_c)`
tuples (lines 469-472) and `Unique Values (Top)` joins `f"\x27{v}\x27: {actual_c}"`
lines (lines 460-464) — neither carries an estimate label. -/
def analyzeText (limitUnique : ℕ) (col : Collector String) (count : ℕ) :
    TextReport :=
  let sample := col.reservoir.reservoir
  let str_sample := sample
  let empty_count := str_sample.count ""
  let non_empty := str_sample.filter (fun s => !(s == ""))
  let lengths := non_empty.map String.length
  { emptyStrings :=
      if col.is_exact then CountResult.exact empty_count
      else CountResult.est (floorEstimate empty_count count sample.length)
  , minLength := match lengths with
      | [] => none
      | l :: ls => some (ls.foldl min l)
  , maxLength := match lengths with
      | [] => none
      | l :: ls => some (ls.foldl max l)
  , avgLength := match lengths with
      | [] => none
      | _ :: _ => some ((lengths.sum : ℚ) / lengths.length)
  , topValuesRaw :=
      (mostCommon str_sample limitUnique).map (fun p =>
        (p.1, if col.is_exact then p.2
              else floorEstimate p.2 count sample.length))
  , topDisplay :=
      String.intercalate "\n"
        ((mostCommon str_sample limitUnique).map (fun p =>
          "\x27" ++ p.1 ++ "\x27: "
            ++ toString (if col.is_exact then p.2
                         else floorEstimate p.2 count sample.length))) }

/-- The entries of the `_analyze_numeric` result map that the claims are
about.  `minV`/`maxV`/`medianV`/`q1`/`q3` are `none` where the source reports
`nan` or omits the key. -/
structure NumericReport where
  conversionErrors : ℕ
  minV : Option ℚ
  maxV : Option ℚ
  meanV : ℚ
  sumV : ℚ
  medianV : Option ℚ
  q1 : Option ℚ
  q3 : Option ℚ
  outliersIQR : Option CountResult
deriving DecidableEq, Repr

/-- Models the conversion comprehension of line 373,
`[float(x) for x in col['reservoir'].reservoir if x is not None]`: the whole
result is `none` when `float(x)` raises on some sampled value (the reservoir
holds no `None` entries, so the filter is vacuous). -/
def floatSample : List NumVal → Option (List ℚ)
  | [] => some []
  | v :: rest =>
    match v.toFloatQ, floatSample rest with
    | some q, some l => some (q :: l)
    | _, _ => none

/-- Models `FieldProfilerTask._analyze_numeric` (lines 358-433) on the entries
the claims are about.  The whole call raises (here `Except.error`) when
`col['streaming_stats']` is `None` or when `float(x)` raises on a sampled
value (line 373) — in the source that exception is caught per-field and the
partially built result map is discarded.  The exact-arithmetic embedding has
no NaNs, so the NaN filter of line 375 is the identity here.  The
`Outliers (IQR)` entry is the sample outlier count, overwritten by the scaled
estimate `int(len(outliers) * count / len(data_sample))` when not exact. -/
def analyzeNumeric (col : Collector NumVal) (count : ℕ) :
    Except Unit NumericReport :=
  match col.streaming_stats with
  | none => Except.error ()
  | some ss =>
    match floatSample col.reservoir.reservoir with
    | none => Except.error ()
    | some data_sample =>
      Except.ok
        { conversionErrors := col.conversion_errors
        , minV := if 0 < ss.count then ss.min_val else none
        , maxV := if 0 < ss.count then ss.max_val else none
        , meanV := ss.mean
        , sumV := ss.mean * ss.count
        , medianV := if 0 < data_sample.length
                     then some (percentile data_sample 50) else none
        , q1 := if 0 < data_sample.length
                then some (percentile data_sample 25) else none
        , q3 := if 0 < data_sample.length
                then some (percentile data_sample 75) else none
        , outliersIQR :=
            if 0 < data_sample.length then
              some (if col.is_exact
                    then CountResult.exact (iqrOutliers data_sample).length
                    else CountResult.est
                      (floorEstimate (iqrOutliers data_sample).length count
                        data_sample.length))
            else none }

/-- Models one run's validation state machine (lines 219-226): per rule, per
row, `try: if not exp.evaluate(feature): fail += 1 / except: fail += 1`.
A rule is an opaque evaluator returning `some b` (the truthiness of the
evaluated value) or `none` (the evaluation raised). -/
def valStep {ρ : Type} (rules : List (ρ → Option Bool)) (counts : List ℕ)
    (row : ρ) : List ℕ :=
  List.zipWith (fun rule c => match rule row with
    | some true => c
    | _ => c + 1) rules counts

/-- Models the whole validation pass: fail counters start at 0, every row is
checked against every rule, and the validation block reports the counters
together with `total_checked = count` (the number of rows iterated,
lines 330-336). -/
def runValidation {ρ : Type} (rules : List (ρ → Option Bool)) (rows : List ρ) :
    List ℕ × ℕ :=
  (rows.foldl (valStep rules) (rules.map (fun _ => 0)), rows.length)

/-- Number of rows on which a rule fails: evaluation returned a falsy value or
raised. -/
def failCnt {ρ : Type} (rule : ρ → Option Bool) (rows : List ρ) : ℕ :=
  rows.countP (fun row => !(rule row == some true))

/-- The schema-level metadata of one field that the run prelude needs. -/
structure FieldMeta where
  isNumeric : Bool
deriving DecidableEq, Repr

/-- A per-field result entry recorded during field resolution. -/
inductive ResultEntry where
  | fieldNotFound
deriving DecidableEq, Repr

/-- Models `qgs_fields.lookupField(fname)` followed by `qgs_fields.field(idx)`
over an association-list schema. -/
def lookupField (schema : List (String × FieldMeta)) (n : String) :
    Option FieldMeta :=
  (schema.find? (fun p => p.1 == n)).map (·.2)

/-- Models the field-resolution loop (lines 105-113): unresolved names get a
`{'Error': 'Field not found'}` result entry and are skipped; resolved names
are entered into `field_metadata`. -/
def resolveFields (schema : List (String × FieldMeta)) (names : List String) :
    List (String × ResultEntry) × List (String × FieldMeta) :=
  names.foldl (fun acc n =>
    match lookupField schema n with
    | none => (acc.1 ++ [(n, ResultEntry.fieldNotFound)], acc.2)
    | some m => (acc.1, acc.2 ++ [(n, m)])) ([], [])

/-- Models line 149,
`[fname for fname in self.field_names if field_metadata[fname]['object'].isNumeric()]`:
the comprehension subscripts `field_metadata` with every requested name, so an
unresolved name raises `KeyError` (here `Except.error`). -/
def numericFieldsForCorr (md : List (String × FieldMeta)) :
    List String → Except String (List String)
  | [] => Except.ok []
  | n :: rest =>
    match lookupField md n with
    | none => Except.error ("KeyError: " ++ n)
    | some m =>
      match numericFieldsForCorr md rest with
      | Except.error e => Except.error e
      | Except.ok l => Except.ok (if m.isNumeric then n :: l else l)

/-- Models the run prelude of `FieldProfilerTask.run` (lines 105-150): field
resolution, then the numeric-fields-for-correlation comprehension.  An
exception here propagates to the `except` handler at line 340, so the task
returns `False` and `finished` emits no results at all. -/
def runPrelude (schema : List (String × FieldMeta)) (names : List String) :
    Except String
      (List (String × ResultEntry) × List (String × FieldMeta) × List String) :=
  let rm := resolveFields schema names
  match numericFieldsForCorr rm.2 names with
  | Except.error e => Except.error e
  | Except.ok corr => Except.ok (rm.1, rm.2, corr)

/-- The reported base-result entries of lines 266-277: `Null Count` is the
collector's null counter and `Non-Null Count` is the reservoir's
`count_seen`. -/
structure BaseResults where
  nullCount : ℕ
  nonNullCount : ℕ
deriving DecidableEq, Repr

/-- Models the construction of the base result entries for one field. -/
def baseResults {V : Type} (c : Collector V) : BaseResults :=
  { nullCount := c.null_count, nonNullCount := c.reservoir.count_seen }

/-- A fixed random oracle for concrete runs (the structural facts below hold
for every oracle). -/
def oracle0 : ℕ → ℕ := fun _ => 0

/-- A printability oracle under which every character counts as
non-printable. -/
def printable0 : Char → Bool := fun _ => false

/-- 1001 rows of a string field, each holding a value with non-printable
characters. -/
def rows1001 : List (ℕ × Option String) :=
  (List.range 1001).map (fun i => (i, some "a"))

/-- Rows of a numeric field with two conversion failures (fids 1 and 3), one
convertible value and one null. -/
def rowsMix : List (ℕ × Option NumVal) :=
  [(0, some (NumVal.num 1)), (1, some NumVal.bad), (2, none),
   (3, some NumVal.bad)]

/-- A text-field collector state in approximate mode whose retained sample is
`["", "x"]` out of `count_seen = 3` non-null values. -/
def col0 : Collector String :=
  { null_count := 0, streaming_stats := none
  , reservoir := { size := MAX_EXACT_VALUES, reservoir := ["", "x"], count_seen := 3 }
  , conversion_errors := 0, conversion_error_fids := [], non_printable_fids := []
  , is_exact := false, original_variants_reservoir := none }

/-- A numeric-field collector state in approximate mode whose retained sample
is `[1, 2, 100, 3]` out of `count_seen = 6` non-null values. -/
def col2 : Collector NumVal :=
  { null_count := 0, streaming_stats := some StreamingStats.start
  , reservoir := { size := MAX_EXACT_VALUES
                 , reservoir := [NumVal.num 1, NumVal.num 2, NumVal.num 100, NumVal.num 3]
                 , count_seen := 6 }
  , conversion_errors := 0, conversion_error_fids := [], non_printable_fids := []
  , is_exact := false, original_variants_reservoir := none }

/-! ### StreamingStats lemmas -/

lemma sum_map_sq_sub (xs : List ℚ) (c : ℚ) :
    (xs.map (fun x => (x - c) ^ 2)).sum
      = sumSq xs - 2 * c * xs.sum + xs.length * c ^ 2 := by
  induction xs with
  | nil => simp [sumSq]
  | cons a l ih =>
    simp only [List.map_cons, List.sum_cons, sumSq, List.length_cons,
      List.sum_cons] at *
    rw [ih]
    push_cast
    ring

lemma streamFold_append (xs : List ℚ) (x : ℚ) :
    streamFold (xs ++ [x]) = (streamFold xs).update x := by
  simp [streamFold, List.foldl_append]

lemma sumSq_append (xs : List ℚ) (x : ℚ) :
    sumSq (xs ++ [x]) = sumSq xs + x ^ 2 := by
  simp [sumSq]

lemma streamFold_closed_form (xs : List ℚ) :
    (streamFold xs).count = xs.length ∧
    (streamFold xs).mean = xs.sum / xs.length ∧
    (streamFold xs).M2 = sumSq xs - xs.sum ^ 2 / xs.length := by
  induction xs using List.reverseRecOn with
  | nil => simp [streamFold, StreamingStats.start, sumSq]
  | append_singleton xs x ih =>
    obtain ⟨hc, hm, hM⟩ := ih
    rw [streamFold_append]
    rcases eq_or_ne xs [] with hxs | hxs
    · subst hxs
      simp [streamFold, StreamingStats.start, StreamingStats.update, sumSq]
    · have hlen : xs.length ≠ 0 := fun h0 => hxs (List.length_eq_zero.mp h0)
      have hn : (xs.length : ℚ) ≠ 0 := Nat.cast_ne_zero.mpr hlen
      have hn1 : ((xs.length : ℚ) + 1) ≠ 0 := by positivity
      refine ⟨?_, ?_, ?_⟩
      · simp [StreamingStats.update, hc]
      · simp only [StreamingStats.update, hm, hc, List.sum_append,
          List.length_append, List.sum_cons, List.sum_nil, List.length_cons,
          List.length_nil]
        push_cast
        field_simp
        ring
      · simp only [StreamingStats.update, hm, hc, hM, sumSq_append,
          List.sum_append, List.length_append, List.sum_cons, List.sum_nil,
          List.length_cons, List.length_nil]
        push_cast
        field_simp
        ring

lemma streamFold_count (xs : List ℚ) : (streamFold xs).count = xs.length :=
  (streamFold_closed_form xs).1

lemma streamFold_mean (xs : List ℚ) : (streamFold xs).mean = exactMean xs :=
  (streamFold_closed_form xs).2.1

lemma streamFold_M2 (xs : List ℚ) : (streamFold xs).M2 = sqDevSum xs := by
  rcases eq_or_ne xs [] with h | h
  · subst h
    simp [streamFold, StreamingStats.start, sqDevSum]
  · have hlen : xs.length ≠ 0 := fun h0 => h (List.length_eq_zero.mp h0)
    have hn : (xs.length : ℚ) ≠ 0 := Nat.cast_ne_zero.mpr hlen
    rw [(streamFold_closed_form xs).2.2, sqDevSum, sum_map_sq_sub, exactMean]
    field_simp
    ring

lemma sqDevSum_nonneg (xs : List ℚ) : 0 ≤ sqDevSum xs := by
  refine List.sum_nonneg ?_
  intro y hy
  obtain ⟨x, _, rfl⟩ := List.mem_map.mp hy
  positivity

lemma streamFold_min_max (xs : List ℚ) (h : xs ≠ []) :
    ∃ m M, (streamFold xs).min_val = some m ∧ (streamFold xs).max_val = some M ∧
      ∀ x ∈ xs, m ≤ x ∧ x ≤ M := by
  induction xs using List.reverseRecOn with
  | nil => exact absurd rfl h
  | append_singleton xs x ih =>
    rw [streamFold_append]
    rcases eq_or_ne xs [] with hxs | hxs
    · subst hxs
      refine ⟨x, x, ?_, ?_, ?_⟩
      · simp [streamFold, StreamingStats.start, StreamingStats.update]
      · simp [streamFold, StreamingStats.start, StreamingStats.update]
      · intro y hy
        simp only [List.nil_append, List.mem_singleton] at hy
        subst hy
        exact ⟨le_refl y, le_refl y⟩
    · obtain ⟨m, M, hmn, hmx, hb⟩ := ih hxs
      refine ⟨if x < m then x else m, if x > M then x else M, ?_, ?_, ?_⟩
      · simp only [StreamingStats.update, hmn]
        split <;> rfl
      · simp only [StreamingStats.update, hmx]
        split <;> rfl
      · intro y hy
        rcases List.mem_append.mp hy with hy | hy
        · obtain ⟨h1, h2⟩ := hb y hy
          constructor
          · split
            · linarith
            · exact h1
          · split
            · linarith
            · exact h2
        · simp only [List.mem_singleton] at hy
          subst hy
          constructor
          · split
            · exact le_refl y
            · linarith [not_lt.mp (by assumption : ¬ y < m)]
          · split
            · exact le_refl y
            · linarith [not_lt.mp (by assumption : ¬ y > M)]

lemma mul_length_le_sum (xs : List ℚ) (m : ℚ) (h : ∀ x ∈ xs, m ≤ x) :
    m * xs.length ≤ xs.sum := by
  induction xs with
  | nil => simp
  | cons a l ih =>
    have ha := h a (List.mem_cons_self a l)
    have hl := ih (fun x hx => h x (List.mem_cons_of_mem a hx))
    simp only [List.sum_cons, List.length_cons]
    push_cast
    nlinarith

lemma sum_le_mul_length (xs : List ℚ) (M : ℚ) (h : ∀ x ∈ xs, x ≤ M) :
    xs.sum ≤ M * xs.length := by
  induction xs with
  | nil => simp
  | cons a l ih =>
    have ha := h a (List.mem_cons_self a l)
    have hl := ih (fun x hx => h x (List.mem_cons_of_mem a hx))
    simp only [List.sum_cons, List.length_cons]
    push_cast
    nlinarith

/-- C2: after any finite sequence of `StreamingStats.update` calls (and hence
after any prefix of a stream — a prefix is itself such a sequence), `count` is
the number of values, `mean` is their exact arithmetic mean, `M2` is the exact
sum of squared deviations from that mean, `variance()` is `M2 / count`
(population variance) for `count ≥ 2` and NaN (`none`) otherwise, and
`std_dev()` is the square root of the variance for `count ≥ 2` and NaN
(`none`) otherwise.  (For the empty stream `mean = 0`, the source's initial
value, which the `0/0 = 0` division convention also assigns to
`xs.sum / xs.length`.) -/
theorem C2_streaming_stats_prefix_exact (xs : List ℚ) :
    (streamFold xs).count = xs.length ∧
    (streamFold xs).mean = exactMean xs ∧
    (streamFold xs).M2 = sqDevSum xs ∧
    (streamFold xs).variance
      = (if xs.length < 2 then none else some (sqDevSum xs / xs.length)) ∧
    (streamFold xs).std_dev
      = (if xs.length < 2 then none
         else some (Real.sqrt ((sqDevSum xs / xs.length : ℚ) : ℝ))) := by
  refine ⟨streamFold_count xs, streamFold_mean xs, streamFold_M2 xs, ?_, ?_⟩
  · rw [StreamingStats.variance, streamFold_count, streamFold_M2]
  · rw [StreamingStats.std_dev, streamFold_count, streamFold_M2]
    split
    · rfl
    · rw [Real.sqrt_eq_rpow]

/-- C9: after any nonempty sequence of `StreamingStats.update` calls, under
exact rational arithmetic the extrema are populated and satisfy
`min_val ≤ mean ≤ max_val`, and `M2 ≥ 0`. -/
theorem C9_stream_bounds (xs : List ℚ) (h : xs ≠ []) :
    (streamFold xs).min_val.isSome = true ∧
    (streamFold xs).max_val.isSome = true ∧
    (streamFold xs).min_val.getD 0 ≤ (streamFold xs).mean ∧
    (streamFold xs).mean ≤ (streamFold xs).max_val.getD 0 ∧
    0 ≤ (streamFold xs).M2 := by
  obtain ⟨m, M, hmn, hmx, hb⟩ := streamFold_min_max xs h
  have hlen : xs.length ≠ 0 := fun h0 => h (List.length_eq_zero.mp h0)
  have hn : (0 : ℚ) < xs.length := by
    exact_mod_cast Nat.pos_of_ne_zero hlen
  rw [hmn, hmx, streamFold_mean]
  refine ⟨rfl, rfl, ?_, ?_, ?_⟩
  · simp only [Option.getD_some]
    rw [exactMean, le_div_iff₀ hn]
    exact mul_length_le_sum xs m (fun x hx => (hb x hx).1)
  · simp only [Option.getD_some]
    rw [exactMean, div_le_iff₀ hn]
    exact sum_le_mul_length xs M (fun x hx => (hb x hx).2)
  · rw [streamFold_M2]
    exact sqDevSum_nonneg xs

/-! ### Collector lemmas -/

@[simp]
lemma updDate_null_count {V : Type} (o : ℕ → ℕ) (c : Collector V) (v : Option V) :
    (c.updDate o v).null_count = c.null_count := by
  unfold Collector.updDate
  split <;> rfl

@[simp]
lemma updDate_reservoir {V : Type} (o : ℕ → ℕ) (c : Collector V) (v : Option V) :
    (c.updDate o v).reservoir = c.reservoir := by
  unfold Collector.updDate
  split <;> rfl

@[simp]
lemma updDate_is_exact {V : Type} (o : ℕ → ℕ) (c : Collector V) (v : Option V) :
    (c.updDate o v).is_exact = c.is_exact := by
  unfold Collector.updDate
  split <;> rfl

@[simp]
lemma updDate_conversion_errors {V : Type} (o : ℕ → ℕ) (c : Collector V)
    (v : Option V) :
    (c.updDate o v).conversion_errors = c.conversion_errors := by
  unfold Collector.updDate
  split <;> rfl

@[simp]
lemma updDate_conversion_error_fids {V : Type} (o : ℕ → ℕ) (c : Collector V)
    (v : Option V) :
    (c.updDate o v).conversion_error_fids = c.conversion_error_fids := by
  unfold Collector.updDate
  split <;> rfl

@[simp]
lemma updDate_non_printable_fids {V : Type} (o : ℕ → ℕ) (c : Collector V)
    (v : Option V) :
    (c.updDate o v).non_printable_fids = c.non_printable_fids := by
  unfold Collector.updDate
  split <;> rfl

lemma update_count_seen {α : Type} (s : ReservoirSampler α) (x : α) (rnd : ℕ) :
    (s.update x rnd).count_seen = s.count_seen + 1 := by
  unfold ReservoirSampler.update
  split
  · rfl
  · dsimp only
    split <;> rfl

lemma update_size {α : Type} (s : ReservoirSampler α) (x : α) (rnd : ℕ) :
    (s.update x rnd).size = s.size := by
  unfold ReservoirSampler.update
  split
  · rfl
  · dsimp only
    split <;> rfl

lemma update_length {α : Type} (s : ReservoirSampler α) (x : α) (rnd : ℕ) :
    (s.update x rnd).reservoir.length
      = if s.reservoir.length < s.size then s.reservoir.length + 1
        else s.reservoir.length := by
  unfold ReservoirSampler.update
  split
  · simp [*]
  · dsimp only
    split <;> simp [*]

lemma collectStep_count_seen {V : Type} (k : FieldKind V) (o : ℕ → ℕ)
    (c : Collector V) (row : ℕ × Option V) :
    (collectStep k o c row).reservoir.count_seen
      = c.reservoir.count_seen + (if row.2.isSome then 1 else 0) := by
  rcases row with ⟨fid, _ | v⟩
  · simp [collectStep]
  · cases hkn : k.isNumeric
    · cases hks : k.isString
      · simp [collectStep, hkn, hks, update_count_seen]
      · cases hnp : k.hasNonPrintable v <;>
          simp [collectStep, hkn, hks, hnp, update_count_seen]
    · cases hf : k.toFloat v <;> simp [collectStep, hkn, hf, update_count_seen]

lemma collectStep_size {V : Type} (k : FieldKind V) (o : ℕ → ℕ)
    (c : Collector V) (row : ℕ × Option V) :
    (collectStep k o c row).reservoir.size = c.reservoir.size := by
  rcases row with ⟨fid, _ | v⟩
  · simp [collectStep]
  · cases hkn : k.isNumeric
    · cases hks : k.isString
      · simp [collectStep, hkn, hks, update_size]
      · cases hnp : k.hasNonPrintable v <;>
          simp [collectStep, hkn, hks, hnp, update_size]
    · cases hf : k.toFloat v <;> simp [collectStep, hkn, hf, update_size]

lemma collectStep_null_count {V : Type} (k : FieldKind V) (o : ℕ → ℕ)
    (c : Collector V) (row : ℕ × Option V) :
    (collectStep k o c row).null_count
      = c.null_count + (if row.2.isNone then 1 else 0) := by
  rcases row with ⟨fid, _ | v⟩
  · simp [collectStep]
  · cases hkn : k.isNumeric
    · cases hks : k.isString
      · simp [collectStep, hkn, hks]
      · cases hnp : k.hasNonPrintable v <;>
          simp [collectStep, hkn, hks, hnp]
    · cases hf : k.toFloat v <;> simp [collectStep, hkn, hf]

lemma collectStep_length {V : Type} (k : FieldKind V) (o : ℕ → ℕ)
    (c : Collector V) (row : ℕ × Option V) :
    (collectStep k o c row).reservoir.reservoir.length
      = if row.2.isSome then
          (if c.reservoir.reservoir.length < c.reservoir.size
           then c.reservoir.reservoir.length + 1
           else c.reservoir.reservoir.length)
        else c.reservoir.reservoir.length := by
  rcases row with ⟨fid, _ | v⟩
  · simp [collectStep]
  · cases hkn : k.isNumeric
    · cases hks : k.isString
      · simp [collectStep, hkn, hks, update_length]
      · cases hnp : k.hasNonPrintable v <;>
          simp [collectStep, hkn, hks, hnp, update_length]
    · cases hf : k.toFloat v <;> simp [collectStep, hkn, hf, update_length]

lemma collectStep_is_exact {V : Type} (k : FieldKind V) (o : ℕ → ℕ)
    (c : Collector V) (row : ℕ × Option V) :
    (collectStep k o c row).is_exact
      = if row.2.isSome then
          (if c.is_exact
                && decide (c.reservoir.count_seen + 1 > MAX_EXACT_VALUES)
           then false else c.is_exact)
        else c.is_exact := by
  rcases row with ⟨fid, _ | v⟩
  · simp [collectStep]
  · cases hkn : k.isNumeric
    · cases hks : k.isString
      · simp [collectStep, hkn, hks, update_count_seen]
      · cases hnp : k.hasNonPrintable v <;>
          simp [collectStep, hkn, hks, hnp, update_count_seen]
    · cases hf : k.toFloat v <;> simp [collectStep, hkn, hf, update_count_seen]

lemma collectStep_conversion_errors {V : Type} (k : FieldKind V) (o : ℕ → ℕ)
    (c : Collector V) (row : ℕ × Option V) (hk : k.isNumeric = true) :
    (collectStep k o c row).conversion_errors
      = c.conversion_errors
          + (match row.2 with
             | some v => if (k.toFloat v).isNone then 1 else 0
             | none => 0) := by
  rcases row with ⟨fid, _ | v⟩
  · simp [collectStep]
  · cases hf : k.toFloat v <;> simp [collectStep, hk, hf]

lemma collectStep_none_conversion_error_fids {V : Type} (k : FieldKind V)
    (o : ℕ → ℕ) (c : Collector V) (fid : ℕ) :
    (collectStep k o c (fid, none)).conversion_error_fids
      = c.conversion_error_fids := by
  simp [collectStep]

lemma collectStep_some_conversion_error_fids {V : Type} (k : FieldKind V)
    (o : ℕ → ℕ) (c : Collector V) (fid : ℕ) (v : V) (hk : k.isNumeric = true) :
    (collectStep k o c (fid, some v)).conversion_error_fids
      = if (k.toFloat v).isNone then
          (if c.conversion_error_fids.length < 1000
           then c.conversion_error_fids ++ [fid]
           else c.conversion_error_fids)
        else c.conversion_error_fids := by
  cases hf : k.toFloat v
  · simp [collectStep, hk, hf]
  · simp [collectStep, hk, hf]

lemma collectStep_none_non_printable_fids {V : Type} (k : FieldKind V)
    (o : ℕ → ℕ) (c : Collector V) (fid : ℕ) :
    (collectStep k o c (fid, none)).non_printable_fids
      = c.non_printable_fids := by
  simp [collectStep]

lemma collectStep_some_non_printable_fids {V : Type} (k : FieldKind V)
    (o : ℕ → ℕ) (c : Collector V) (fid : ℕ) (v : V)
    (hk : k.isNumeric = false) (hs : k.isString = true) :
    (collectStep k o c (fid, some v)).non_printable_fids
      = if k.hasNonPrintable v then
          (if c.non_printable_fids.length < 1000
           then c.non_printable_fids ++ [fid]
           else c.non_printable_fids)
        else c.non_printable_fids := by
  cases hnp : k.hasNonPrintable v
  · simp [collectStep, hk, hs, hnp]
  · simp [collectStep, hk, hs, hnp]

lemma foldCollect_count_seen {V : Type} (k : FieldKind V) (o : ℕ → ℕ)
    (rows : List (ℕ × Option V)) :
    ∀ c : Collector V,
      ((rows.foldl (collectStep k o) c).reservoir.count_seen
        = c.reservoir.count_seen + nonNullCnt rows) := by
  induction rows with
  | nil => intro c; simp [nonNullCnt]
  | cons r rows ih =>
    intro c
    rw [List.foldl_cons, ih, collectStep_count_seen]
    simp only [nonNullCnt, List.countP_cons]
    split <;> omega

lemma foldCollect_size {V : Type} (k : FieldKind V) (o : ℕ → ℕ)
    (rows : List (ℕ × Option V)) :
    ∀ c : Collector V,
      (rows.foldl (collectStep k o) c).reservoir.size = c.reservoir.size := by
  induction rows with
  | nil => intro c; rfl
  | cons r rows ih =>
    intro c
    rw [List.foldl_cons, ih, collectStep_size]

lemma foldCollect_null_count {V : Type} (k : FieldKind V) (o : ℕ → ℕ)
    (rows : List (ℕ × Option V)) :
    ∀ c : Collector V,
      (rows.foldl (collectStep k o) c).null_count
        = c.null_count + nullCnt rows := by
  induction rows with
  | nil => intro c; simp [nullCnt]
  | cons r rows ih =>
    intro c
    rw [List.foldl_cons, ih, collectStep_null_count]
    simp only [nullCnt, List.countP_cons]
    split <;> omega

lemma foldCollect_length {V : Type} (k : FieldKind V) (o : ℕ → ℕ)
    (rows : List (ℕ × Option V)) :
    ∀ c : Collector V,
      c.reservoir.reservoir.length = min c.reservoir.count_seen c.reservoir.size →
      (rows.foldl (collectStep k o) c).reservoir.reservoir.length
        = min (rows.foldl (collectStep k o) c).reservoir.count_seen
            (rows.foldl (collectStep k o) c).reservoir.size := by
  induction rows with
  | nil => intro c h; exact h
  | cons r rows ih =>
    intro c h
    rw [List.foldl_cons]
    refine ih _ ?_
    rw [collectStep_length, collectStep_count_seen, collectStep_size]
    rcases r with ⟨fid, _ | v⟩
    · simpa using h
    · simp only [Option.isSome_some, if_true, reduceIte]
      split <;> omega

lemma foldCollect_is_exact {V : Type} (k : FieldKind V) (o : ℕ → ℕ)
    (rows : List (ℕ × Option V)) :
    ∀ c : Collector V,
      c.is_exact = decide (c.reservoir.count_seen ≤ MAX_EXACT_VALUES) →
      (rows.foldl (collectStep k o) c).is_exact
        = decide ((rows.foldl (collectStep k o) c).reservoir.count_seen
            ≤ MAX_EXACT_VALUES) := by
  induction rows with
  | nil => intro c h; exact h
  | cons r rows ih =>
    intro c h
    rw [List.foldl_cons]
    refine ih _ ?_
    rw [collectStep_is_exact, collectStep_count_seen, h]
    rcases r with ⟨fid, _ | v⟩
    · simp
    · simp only [Option.isSome_some, if_true, reduceIte]
      by_cases h1 : c.reservoir.count_seen ≤ MAX_EXACT_VALUES <;>
        by_cases h2 : c.reservoir.count_seen + 1 ≤ MAX_EXACT_VALUES <;>
        simp [h1, h2] <;> omega

lemma foldCollect_conversion_errors {V : Type} (k : FieldKind V) (o : ℕ → ℕ)
    (rows : List (ℕ × Option V)) (hk : k.isNumeric = true) :
    ∀ c : Collector V,
      (rows.foldl (collectStep k o) c).conversion_errors
        = c.conversion_errors + badCnt k rows := by
  induction rows with
  | nil => intro c; simp [badCnt]
  | cons r rows ih =>
    intro c
    rw [List.foldl_cons, ih, collectStep_conversion_errors k o c r hk]
    simp only [badCnt, List.countP_cons]
    rcases r with ⟨fid, _ | v⟩
    · simp
    · by_cases hf : (k.toFloat v).isNone
      · simp [hf]
        omega
      · simp [hf]

lemma foldCollect_conversion_error_fids_length {V : Type} (k : FieldKind V)
    (o : ℕ → ℕ) (rows : List (ℕ × Option V)) (hk : k.isNumeric = true) :
    ∀ c : Collector V,
      c.conversion_error_fids.length ≤ 1000 →
      (rows.foldl (collectStep k o) c).conversion_error_fids.length
        = min (c.conversion_error_fids.length + badCnt k rows) 1000 := by
  induction rows with
  | nil => intro c h; simp only [List.foldl_nil, badCnt, List.countP_nil]; omega
  | cons r rows ih =>
    rcases r with ⟨fid, val⟩
    intro c h
    rw [List.foldl_cons]
    rcases val with _ | v
    · rw [ih _ (by rw [collectStep_none_conversion_error_fids]; exact h),
        collectStep_none_conversion_error_fids]
      simp [badCnt, List.countP_cons]
    · have hstep := collectStep_some_conversion_error_fids k o c fid v hk
      have hlen : (collectStep k o c (fid, some v)).conversion_error_fids.length
          = if (k.toFloat v).isNone then
              (if c.conversion_error_fids.length < 1000
               then c.conversion_error_fids.length + 1
               else c.conversion_error_fids.length)
            else c.conversion_error_fids.length := by
        rw [hstep]
        split
        · split <;> simp [*]
        · rfl
      have hle : (collectStep k o c (fid, some v)).conversion_error_fids.length
          ≤ 1000 := by
        rw [hlen]
        split
        · split <;> omega
        · exact h
      rw [ih _ hle, hlen]
      simp only [badCnt, List.countP_cons]
      split_ifs <;> omega

lemma foldCollect_non_printable_fids_length {V : Type} (k : FieldKind V)
    (o : ℕ → ℕ) (rows : List (ℕ × Option V)) (hk : k.isNumeric = false)
    (hs : k.isString = true) :
    ∀ c : Collector V,
      c.non_printable_fids.length ≤ 1000 →
      (rows.foldl (collectStep k o) c).non_printable_fids.length
        = min (c.non_printable_fids.length + npCnt k rows) 1000 := by
  induction rows with
  | nil => intro c h; simp only [List.foldl_nil, npCnt, List.countP_nil]; omega
  | cons r rows ih =>
    rcases r with ⟨fid, val⟩
    intro c h
    rw [List.foldl_cons]
    rcases val with _ | v
    · rw [ih _ (by rw [collectStep_none_non_printable_fids]; exact h),
        collectStep_none_non_printable_fids]
      simp [npCnt, List.countP_cons]
    · have hstep := collectStep_some_non_printable_fids k o c fid v hk hs
      have hlen : (collectStep k o c (fid, some v)).non_printable_fids.length
          = if k.hasNonPrintable v then
              (if c.non_printable_fids.length < 1000
               then c.non_printable_fids.length + 1
               else c.non_printable_fids.length)
            else c.non_printable_fids.length := by
        rw [hstep]
        split
        · split <;> simp [*]
        · rfl
      have hle : (collectStep k o c (fid, some v)).non_printable_fids.length
          ≤ 1000 := by
        rw [hlen]
        split
        · split <;> omega
        · exact h
      rw [ih _ hle, hlen]
      simp only [npCnt, List.countP_cons]
      split_ifs <;> omega

lemma nullCnt_add_nonNullCnt {V : Type} (rows : List (ℕ × Option V)) :
    nullCnt rows + nonNullCnt rows = rows.length := by
  induction rows with
  | nil => rfl
  | cons r rows ih =>
    rcases r with ⟨fid, _ | v⟩ <;>
      simp only [nullCnt, nonNullCnt, List.countP_cons, List.length_cons] at * <;>
      simp <;> omega

/-- C3: for every analyzed field (any domain) and every completed collection
pass, the reported `Null Count` plus the reported `Non-Null Count` equals the
total number of rows analyzed — including 0 rows, all-null and no-null
streams, which are particular `rows` instances. -/
theorem C3_null_accounting {V : Type} (k : FieldKind V) (oracle : ℕ → ℕ)
    (rows : List (ℕ × Option V)) :
    (baseResults (collectField k oracle rows)).nullCount
      + (baseResults (collectField k oracle rows)).nonNullCount
      = rows.length := by
  unfold baseResults collectField
  rw [foldCollect_null_count, foldCollect_count_seen]
  have h := nullCnt_add_nonNullCnt rows
  simp only [Collector.start, ReservoirSampler.start]
  omega

/-- C4: a field's `is_exact` flag after the pass is true exactly when at most
`MAX_EXACT_VALUES` non-null values were observed: it is still true after
exactly `MAX_EXACT_VALUES` of them, false after `MAX_EXACT_VALUES + 1`, and —
since the non-null count only grows — stays false for any continuation of the
pass. -/
theorem C4_exactness_switch {V : Type} (k : FieldKind V) (oracle : ℕ → ℕ)
    (rows : List (ℕ × Option V)) :
    (collectField k oracle rows).is_exact = true
      ↔ nonNullCnt rows ≤ MAX_EXACT_VALUES := by
  unfold collectField
  rw [foldCollect_is_exact k oracle rows (Collector.start k)
      (by simp [Collector.start, ReservoirSampler.start]),
    foldCollect_count_seen]
  simp [Collector.start, ReservoirSampler.start]

/-- Witness for C4 at a concrete one-row pass. -/
theorem C4_exactness_switch_witness :
    (collectField (textKind printable0) oracle0 [(0, some "a")]).is_exact = true
      ↔ nonNullCnt [((0 : ℕ), some "a")] ≤ MAX_EXACT_VALUES :=
  C4_exactness_switch (textKind printable0) oracle0 [(0, some "a")]

/-- C10: whenever a collector's `is_exact` flag is false after the pass, its
reservoir holds exactly `MAX_EXACT_VALUES` (the capacity) retained items, a
positive number — so the divisions by the sample length in the non-exact
branches of `_analyze_text` have a non-zero divisor. -/
theorem C10_reservoir_full_when_not_exact {V : Type} (k : FieldKind V)
    (oracle : ℕ → ℕ) (rows : List (ℕ × Option V)) :
    (collectField k oracle rows).is_exact = true
      ∨ ((collectField k oracle rows).reservoir.reservoir.length
            = MAX_EXACT_VALUES
          ∧ 0 < (collectField k oracle rows).reservoir.reservoir.length) := by
  by_cases hex : (collectField k oracle rows).is_exact = true
  · exact Or.inl hex
  · right
    unfold collectField at *
    have hlen := foldCollect_length k oracle rows (Collector.start k)
      (by simp [Collector.start, ReservoirSampler.start])
    have hsz := foldCollect_size k oracle rows (Collector.start k)
    rw [show (Collector.start k).reservoir.size = MAX_EXACT_VALUES from rfl] at hsz
    rw [foldCollect_is_exact k oracle rows (Collector.start k)
        (by simp [Collector.start, ReservoirSampler.start])] at hex
    simp only [decide_eq_true_eq, not_le] at hex
    rw [hlen, hsz]
    have hpos : 0 < MAX_EXACT_VALUES := by norm_num [MAX_EXACT_VALUES]
    omega

/-- C6: the source tracks rows with non-printable characters only through the
`non_printable_fids` list, which is capped at 1000 entries; after 1001
offending rows the collector retains `1000`, not the true count `1001`, and
holds no separate exact counter — the code-level state contradicts the spec's
requirement that the count stay exact beyond the cap. -/
theorem C6_nonprintable_count_capped :
    (collectField (textKind printable0) oracle0 rows1001).non_printable_fids.length
      = 1000 ∧ npCnt (textKind printable0) rows1001 = 1001 := by
  have hnp : npCnt (textKind printable0) rows1001 = 1001 := by
    have hall : npCnt (textKind printable0) rows1001 = rows1001.length := by
      unfold npCnt
      refine List.countP_eq_length.mpr ?_
      intro p hp
      obtain ⟨i, hi, rfl⟩ :=
        (show ∃ a < 1001, (a, some "a") = p by simpa [rows1001] using hp)
      show (textKind printable0).hasNonPrintable "a" = true
      decide
    rw [hall]
    simp [rows1001]
  refine ⟨?_, hnp⟩
  unfold collectField
  rw [foldCollect_non_printable_fids_length (textKind printable0) oracle0
      rows1001 rfl rfl (Collector.start _) (by simp [Collector.start]), hnp]
  simp [Collector.start]

/-- C7: the collector's conversion-error counter is the exact number of
non-null values failing `float(...)` over the whole pass, the recorded fid
list is capped at 1000, and whenever `_analyze_numeric` returns a result map
its `Conversion Errors` entry is that exact counter — never sample-scaled,
whatever the `is_exact` flag. -/
theorem C7_conversion_errors_exact (oracle : ℕ → ℕ)
    (rows : List (ℕ × Option NumVal)) (cnt : ℕ) :
    (collectField numericKind oracle rows).conversion_errors
        = badCnt numericKind rows
      ∧ (collectField numericKind oracle rows).conversion_error_fids.length
          = min (badCnt numericKind rows) 1000
      ∧ (∀ rep : NumericReport,
          analyzeNumeric (collectField numericKind oracle rows) cnt
              = Except.ok rep →
          rep.conversionErrors = badCnt numericKind rows) := by
  have herr : (collectField numericKind oracle rows).conversion_errors
      = badCnt numericKind rows := by
    unfold collectField
    rw [foldCollect_conversion_errors numericKind oracle rows rfl]
    simp [Collector.start]
  refine ⟨herr, ?_, ?_⟩
  · unfold collectField
    rw [foldCollect_conversion_error_fids_length numericKind oracle rows rfl
        (Collector.start _) (by simp [Collector.start])]
    simp [Collector.start]
  · intro rep h
    unfold analyzeNumeric at h
    rcases hss : (collectField numericKind oracle rows).streaming_stats with _ | ss
    · rw [hss] at h
      exact absurd h (by simp)
    · rw [hss] at h
      rcases hfs : floatSample (collectField numericKind oracle rows).reservoir.reservoir
        with _ | ds
      · rw [hfs] at h
        exact absurd h (by simp)
      · rw [hfs] at h
        simp only [Except.ok.injEq] at h
        rw [← h]
        exact herr

/-- Witness for C7: on `rowsMix` (two conversion failures) the counter is 2
and the fid list has 2 entries; on an empty pass the finalizer returns a
report whose `Conversion Errors` entry is the exact count 0. -/
theorem C7_conversion_errors_exact_witness :
    (collectField numericKind oracle0 rowsMix).conversion_errors = 2
      ∧ (collectField numericKind oracle0 rowsMix).conversion_error_fids.length = 2
      ∧ ((analyzeNumeric
            (collectField numericKind oracle0 ([] : List (ℕ × Option NumVal))) 0).map
          NumericReport.conversionErrors) = Except.ok 0 := by
  have h1 := C7_conversion_errors_exact oracle0 rowsMix 0
  have h2 := C7_conversion_errors_exact oracle0 ([] : List (ℕ × Option NumVal)) 0
  refine ⟨?_, ?_, ?_⟩
  · rw [h1.1]
    decide
  · rw [h1.2.1]
    decide
  · rcases hE : analyzeNumeric
        (collectField numericKind oracle0 ([] : List (ℕ × Option NumVal))) 0
      with e | rep
    · have hok : (analyzeNumeric
          (collectField numericKind oracle0 ([] : List (ℕ × Option NumVal))) 0).isOk
            = true := rfl
      rw [hE] at hok
      cases e
      exact absurd hok (by decide)
    · show Except.ok rep.conversionErrors = Except.ok 0
      rw [h2.2.2 rep hE]
      rfl

/-! ### Validation lemmas -/

lemma zipWith_keep {A : Type} :
    ∀ (l : List A) (counts : List ℕ), counts.length = l.length →
      List.zipWith (fun _ c => c) l counts = counts := by
  intro l
  induction l with
  | nil =>
    intro counts h
    simp at h
    simp [h]
  | cons a l ih =>
    intro counts h
    rcases counts with _ | ⟨c, counts⟩
    · simp at h
    · simp only [List.zipWith_cons_cons]
      rw [ih counts (by simpa using h)]

lemma zipWith_fusion {A : Type} (f g : A → ℕ → ℕ) :
    ∀ (l : List A) (counts : List ℕ),
      List.zipWith f l (List.zipWith g l counts)
        = List.zipWith (fun r c => f r (g r c)) l counts := by
  intro l
  induction l with
  | nil => intro counts; rfl
  | cons a l ih =>
    intro counts
    rcases counts with _ | ⟨c, counts⟩
    · rfl
    · simp only [List.zipWith_cons_cons]
      rw [ih counts]

lemma zipWith_ext {A : Type} (f g : A → ℕ → ℕ) (h : ∀ a c, f a c = g a c) :
    ∀ (l : List A) (counts : List ℕ),
      List.zipWith f l counts = List.zipWith g l counts := by
  intro l
  induction l with
  | nil => intro counts; rfl
  | cons a l ih =>
    intro counts
    rcases counts with _ | ⟨c, counts⟩
    · rfl
    · simp only [List.zipWith_cons_cons]
      rw [ih counts, h a c]

lemma valFold {ρ : Type} (rules : List (ρ → Option Bool)) :
    ∀ (rows : List ρ) (counts : List ℕ), counts.length = rules.length →
      rows.foldl (valStep rules) counts
        = List.zipWith (fun rule c => c + failCnt rule rows) rules counts := by
  intro rows
  induction rows with
  | nil =>
    intro counts h
    rw [List.foldl_nil,
      zipWith_ext _ (fun _ c => c) (by intro a c; simp [failCnt]) rules counts,
      zipWith_keep rules counts h]
  | cons row rows ih =>
    intro counts h
    rw [List.foldl_cons,
      ih (valStep rules counts row)
        (by rw [valStep, List.length_zipWith]; omega),
      valStep, zipWith_fusion]
    refine zipWith_ext _ _ ?_ rules counts
    intro a c
    unfold failCnt
    rw [List.countP_cons]
    rcases hra : a row with _ | b
    · simp [hra]
      rw [Nat.add_assoc, Nat.add_comm 1]
    · rcases b
      · simp [hra]
        rw [Nat.add_assoc, Nat.add_comm 1]
      · simp [hra]

lemma mostCommon_counts (l : List String) (k : ℕ) (p : String × ℕ)
    (hp : p ∈ mostCommon l k) : p.2 = l.count p.1 := by
  unfold mostCommon at hp
  have hp2 := List.mem_of_mem_take hp
  rw [List.mem_insertionSort] at hp2
  obtain ⟨s, hs, rfl⟩ := List.mem_map.mp hp2
  rfl

/-- C8: for every configured rule set and every row stream, each rule's fail
counter ends up counting exactly the rows on which the rule evaluated to a
falsy value or raised, and the validation block's `total_checked` is the
number of rows iterated. -/
theorem C8_validation_fail_counts {ρ : Type} (rules : List (ρ → Option Bool))
    (rows : List ρ) :
    runValidation rules rows
      = (rules.map (fun r => failCnt r rows), rows.length) := by
  have hlist : rows.foldl (valStep rules) (rules.map fun _ => 0)
      = rules.map (fun r => failCnt r rows) := by
    rw [valFold rules rows (rules.map fun _ => 0) (by simp)]
    induction rules with
    | nil => rfl
    | cons a l ih =>
      simp only [List.map_cons, List.zipWith_cons_cons, ih, Nat.zero_add]
  unfold runValidation
  rw [hlist]

/-- C1: the run prelude of `FieldProfilerTask.run` raises `KeyError` whenever
a requested field name is unresolved — the field gets its
`{'Error': 'Field not found'}` entry, but line 149 then subscripts
`field_metadata` with every requested name, the exception escapes to the
task-level handler, and the run fails with no results delivered for any
field. -/
theorem C1_missing_field_aborts_run :
    runPrelude [("a", { isNumeric := true })] ["a", "missing"]
        = Except.error "KeyError: missing"
      ∧ (resolveFields [("a", { isNumeric := true })] ["a", "missing"]).1
          = [("missing", ResultEntry.fieldNotFound)] :=
  ⟨rfl, rfl⟩

/-- C5 (amended): whenever a collector's `is_exact` flag is false, every
sample-derived count in its results — the empty-string count and the top-K
frequency counts of `_analyze_text`, and the IQR outlier count of
`_analyze_numeric` — equals `floor(sample_count * count_seen_total /
sample_size)` (Python `int()` truncation, not rounding); the empty-string and
IQR outlier counts are labeled as estimates (the `CountResult.est`
constructor, rendered with the `" (Est.)"` suffix), while the top-K frequency
counts are emitted as plain unlabeled integers. -/
theorem C5_floor_scaling (colT : Collector String) (cntT limit : ℕ)
    (colN : Collector NumVal) (cntN : ℕ) (rep : NumericReport)
    (cr : CountResult) (ds : List ℚ)
    (hT : colT.is_exact = false) (hN : colN.is_exact = false)
    (hds : floatSample colN.reservoir.reservoir = some ds)
    (hrep : analyzeNumeric colN cntN = Except.ok rep)
    (hcr : rep.outliersIQR = some cr) :
    (analyzeText limit colT cntT).emptyStrings
        = CountResult.est (floorEstimate (colT.reservoir.reservoir.count "")
            cntT colT.reservoir.reservoir.length)
      ∧ (∀ p ∈ (analyzeText limit colT cntT).topValuesRaw,
          p.2 = floorEstimate (colT.reservoir.reservoir.count p.1) cntT
              colT.reservoir.reservoir.length)
      ∧ cr = CountResult.est
          (floorEstimate (iqrOutliers ds).length cntN ds.length) := by
  refine ⟨?_, ?_, ?_⟩
  · simp [analyzeText, hT]
  · intro p hp
    unfold analyzeText at hp
    simp only [hT, Bool.false_eq_true, if_false, reduceIte] at hp
    rw [List.mem_map] at hp
    obtain ⟨q, hq, rfl⟩ := hp
    have hqc := mostCommon_counts _ _ _ hq
    simp [hqc]
  · unfold analyzeNumeric at hrep
    rcases hss : colN.streaming_stats with _ | ss
    · rw [hss] at hrep
      exact absurd hrep (by simp)
    · rw [hss, hds] at hrep
      simp only [Except.ok.injEq] at hrep
      rw [← hrep] at hcr
      by_cases hlen : 0 < ds.length
      · simp only [hlen, if_true, hN, Bool.false_eq_true, if_false,
          reduceIte, Option.some.injEq] at hcr
        exact hcr.symm
      · simp only [hlen, if_false, reduceIte] at hcr
        exact absurd hcr (by simp)

/-- Counterexample for C5 as stated, on a non-exact text collector with
sample `["", "x"]` out of 3 non-null values.  Scaling: the source reports
`Empty Strings = int(1*3/2) = 1 (Est.)` while the spec's `round(1*3/2) = 2`.
Labeling: the top-K frequency counts are emitted as the plain unlabeled
integers `[("", 1), ("x", 1)]` in `_top_values_raw`, and `Unique Values (Top)`
renders them with no `" (Est.)"` suffix, contradicting "always labeled as an
estimate". -/
theorem C5_round_scaling_counterexample :
    col0.is_exact = false
      ∧ (analyzeText 5 col0 3).emptyStrings = CountResult.est 1
      ∧ specRoundEstimate (col0.reservoir.reservoir.count "") 3
          col0.reservoir.reservoir.length = 2
      ∧ (analyzeText 5 col0 3).emptyStrings
          ≠ CountResult.est (specRoundEstimate (col0.reservoir.reservoir.count "")
              3 col0.reservoir.reservoir.length)
      ∧ (analyzeText 5 col0 3).topValuesRaw = [("", 1), ("x", 1)]
      ∧ (analyzeText 5 col0 3).topDisplay = "\x27\x27: 1\n\x27x\x27: 1" := by
  have hr : specRoundEstimate (col0.reservoir.reservoir.count "") 3
      col0.reservoir.reservoir.length = 2 := by
    show specRoundEstimate 1 3 2 = 2
    unfold specRoundEstimate
    norm_num [round_eq]
    rfl
  refine ⟨rfl, rfl, hr, ?_, rfl, rfl⟩
  rw [hr, show (analyzeText 5 col0 3).emptyStrings = CountResult.est 1 from rfl]
  simp

/-- Witness for C5 (amended) at the concrete collectors `col0` (text) and
`col2` (numeric). -/
theorem C5_floor_scaling_witness :
    (analyzeText 5 col0 3).emptyStrings
        = CountResult.est (floorEstimate (col0.reservoir.reservoir.count "") 3
            col0.reservoir.reservoir.length)
      ∧ ((analyzeNumeric col2 6).map (fun rep => rep.outliersIQR))
          = Except.ok (some (CountResult.est
              (floorEstimate (iqrOutliers [(1 : ℚ), 2, 100, 3]).length 6 4))) := by
  have hds : floatSample col2.reservoir.reservoir
      = some [(1 : ℚ), 2, 100, 3] := rfl
  rcases hE : analyzeNumeric col2 6 with e | rep
  · have hok : (analyzeNumeric col2 6).isOk = true := rfl
    rw [hE] at hok
    cases e
    exact absurd hok (by decide)
  · have h3 := congrArg
      (fun x => match x with
        | Except.ok r => r.outliersIQR
        | Except.error _ => none) hE
    have hcr : rep.outliersIQR
        = some (CountResult.est
            (floorEstimate (iqrOutliers [(1 : ℚ), 2, 100, 3]).length 6 4)) :=
      h3.symm.trans rfl
    have happ := C5_floor_scaling col0 3 5 col2 6 rep _ [(1 : ℚ), 2, 100, 3]
      rfl rfl hds hE hcr
    refine ⟨happ.1, ?_⟩
    show Except.ok rep.outliersIQR = _
    rw [hcr]

/-- Witness for C9 at the concrete stream `[3, 1]`. -/
theorem C9_stream_bounds_witness :
    (streamFold [3, 1]).min_val.isSome = true ∧
    (streamFold [3, 1]).max_val.isSome = true ∧
    (streamFold [3, 1]).min_val.getD 0 ≤ (streamFold [3, 1]).mean ∧
    (streamFold [3, 1]).mean ≤ (streamFold [3, 1]).max_val.getD 0 ∧
    0 ≤ (streamFold [3, 1]).M2 :=
  C9_stream_bounds [3, 1] (by simp)

end FieldProfiler

